import Mathlib

/-!
Verification of the translation-job orchestration core.

The development shallowly embeds the program's components:

* the Chunker `split_text_into_sentence_groups` (api/helpers.py),
* the store operations (api/crud.py) over an explicit database state,
* the Sub-job Worker `process_individual_translation` and the Job
  Orchestrator `process_translation` (api/tasks.py, api/tasks_async.py),
* the retrying Translation Client `query_gpt_async` (api/tasks_async.py),
* the polling endpoint `get_translate` (api/main.py).

Sentence boundary detection (spaCy) and the external translation service
are external collaborators: they enter as function parameters
(`segment : String → List String`, `translate : String → String → Except Unit String`).
Fallible Python code (exceptions, `None` dereference) is embedded with
`Except`/`Option` results.
-/

/-! ### Chunker (api/helpers.py, `split_text_into_sentence_groups`)

The source iterates over the segmented sentences, appending each to
`current_group`; when the group reaches 20 sentences it is joined with a
single space and flushed, and a nonempty final group is flushed after the
loop.  The sentence-count bound is the literal `20` in the source; it is
kept as the parameter `limit` here so the spec's limit-generic chunker
contract (§4.1) can also be stated, and the source function fixes it to 20. -/

def sentenceGroupsAux (limit : Nat) (current : List String) : List String → List String
  | [] => if current = [] then [] else [String.intercalate " " current]
  | s :: rest =>
    if (current ++ [s]).length = limit then
      String.intercalate " " (current ++ [s]) :: sentenceGroupsAux limit [] rest
    else
      sentenceGroupsAux limit (current ++ [s]) rest

/-- The chunker with an explicit group-size limit (spec §4.1 contract). -/
def sentence_groups (limit : Nat) (sents : List String) : List String :=
  sentenceGroupsAux limit [] sents

/-- `split_text_into_sentence_groups` from api/helpers.py, taking the
already-segmented sentence units (segmentation is the external `nlp`). -/
def split_text_into_sentence_groups (sents : List String) : List String :=
  sentence_groups 20 sents

/-- Structure of the chunker's output: the input partitions into
consecutive groups `gs`; every group but the last has exactly `limit`
sentences, the last has between 1 and `limit`, the output is the per-group
space-join, and groups are nonempty. -/
theorem sentenceGroupsAux_structure (limit : Nat) (hl : 1 ≤ limit) :
    ∀ (sents current : List String), current.length < limit →
    ∃ gs : List (List String),
      current ++ sents = gs.flatten ∧
      sentenceGroupsAux limit current sents = gs.map (String.intercalate " ") ∧
      (∀ g ∈ gs.dropLast, g.length = limit) ∧
      (∀ g, gs.getLast? = some g → 1 ≤ g.length ∧ g.length ≤ limit) ∧
      (gs = [] ↔ current = [] ∧ sents = []) ∧
      (∀ g ∈ gs, g ≠ []) := by
  intro sents
  induction sents with
  | nil =>
    intro current hc
    by_cases h : current = []
    · subst h
      exact ⟨[], by simp, by simp [sentenceGroupsAux], by simp, by simp, by simp, by simp⟩
    · refine ⟨[current], by simp, by simp [sentenceGroupsAux, h], by simp, ?_, by simp [h], ?_⟩
      · intro g hg
        simp only [List.getLast?_singleton, Option.some.injEq] at hg
        subst hg
        exact ⟨List.length_pos.mpr h, Nat.le_of_lt hc⟩
      · intro g hg
        simp only [List.mem_singleton] at hg
        subst hg
        exact h
  | cons s rest ih =>
    intro current hc
    by_cases hfull : (current ++ [s]).length = limit
    · obtain ⟨gs, h1, h2, h3, h4, h5, h6⟩ := ih [] (by simp only [List.length_nil]; omega)
      simp only [List.nil_append] at h1
      refine ⟨(current ++ [s]) :: gs, ?_, ?_, ?_, ?_, ?_, ?_⟩
      · simp [← h1]
      · simp only [sentenceGroupsAux, List.map_cons]
        rw [if_pos hfull, h2]
      · intro g hg
        cases gs with
        | nil => simp at hg
        | cons g0 gs0 =>
          rw [List.dropLast_cons₂] at hg
          rcases List.mem_cons.mp hg with hg | hg
          · subst hg; exact hfull
          · exact h3 g hg
      · intro g hg
        cases gs with
        | nil =>
          simp only [List.getLast?_singleton, Option.some.injEq] at hg
          subst hg
          exact ⟨by omega, by omega⟩
        | cons g0 gs0 =>
          rw [List.getLast?_cons_cons] at hg
          exact h4 g hg
      · simp
      · intro g hg
        rcases List.mem_cons.mp hg with hg | hg
        · subst hg; simp
        · exact h6 g hg
    · have hlt : (current ++ [s]).length < limit := by
        simp only [List.length_append, List.length_singleton] at hfull ⊢
        omega
      obtain ⟨gs, h1, h2, h3, h4, h5, h6⟩ := ih (current ++ [s]) hlt
      refine ⟨gs, ?_, ?_, h3, h4, ?_, h6⟩
      · rw [← h1]; simp
      · simp only [sentenceGroupsAux]
        rw [if_neg hfull, h2]
      · constructor
        · intro h
          have := (h5.mp h).1
          simp at this
        · intro ⟨_, h⟩
          exact absurd h (by simp)

/-- C1: for every input whose sentence segmentation yields the units
`sents`, the chunker output is the space-join of a consecutive partition
in which every group except possibly the last has exactly 20 sentences and
the last has between 1 and 20; empty input yields an empty output, and a
nonempty input of fewer than 20 sentences yields exactly one chunk. -/
theorem chunker_chunk_size_invariant (sents : List String) :
    ∃ gs : List (List String),
      sents = gs.flatten ∧
      split_text_into_sentence_groups sents = gs.map (String.intercalate " ") ∧
      (∀ g ∈ gs.dropLast, g.length = 20) ∧
      (∀ g, gs.getLast? = some g → 1 ≤ g.length ∧ g.length ≤ 20) ∧
      (sents = [] → split_text_into_sentence_groups sents = []) ∧
      (sents ≠ [] → sents.length < 20 →
        (split_text_into_sentence_groups sents).length = 1) := by
  obtain ⟨gs, h1, h2, h3, h4, h5, h6⟩ :=
    sentenceGroupsAux_structure 20 (by omega) sents [] (by simp)
  simp only [List.nil_append] at h1
  have hsplit : split_text_into_sentence_groups sents = gs.map (String.intercalate " ") := h2
  refine ⟨gs, h1, hsplit, h3, h4, ?_, ?_⟩
  · intro h
    rw [hsplit, h5.mpr ⟨rfl, h⟩]
    rfl
  · intro hne hlen
    have hgs : gs ≠ [] := fun h => hne (h5.mp h).2
    have hlen1 : gs.length = 1 := by
      by_contra hne1
      have h2le : 2 ≤ gs.length := by
        cases gs with
        | nil => exact absurd rfl hgs
        | cons a l =>
          cases l with
          | nil => exact absurd rfl hne1
          | cons b m => simp only [List.length_cons]; omega
      have hd : gs.dropLast ≠ [] := by
        intro h
        have := congrArg List.length h
        rw [List.length_dropLast] at this
        simp at this
        omega
      obtain ⟨g, hg⟩ := List.exists_mem_of_ne_nil _ hd
      have hg20 := h3 g hg
      have hmem : g ∈ gs := List.dropLast_subset gs hg
      have h20le : 20 ≤ sents.length := by
        rw [h1, List.length_flatten]
        have hin : g.length ∈ gs.map List.length := List.mem_map_of_mem _ hmem
        calc (20 : Nat) = g.length := hg20.symm
          _ ≤ (gs.map List.length).sum :=
            List.single_le_sum (fun x _ => Nat.zero_le x) _ hin
      omega
    rw [hsplit, List.length_map, hlen1]

/-- Witness for C1, at the empty input and at a two-sentence input. -/
theorem chunker_chunk_size_invariant_witness :
    split_text_into_sentence_groups [] = [] ∧
    (split_text_into_sentence_groups ["One.", "Two."]).length = 1 := by
  obtain ⟨gs, _, _, _, _, h5, _⟩ := chunker_chunk_size_invariant []
  obtain ⟨gs', _, _, _, _, _, h6'⟩ := chunker_chunk_size_invariant ["One.", "Two."]
  exact ⟨h5 rfl, h6' (by simp) (by decide)⟩

/-! ### C2: the chunk-order round trip

The spec's §8 round-trip property splits the joined output on the
separator.  The separator is the space character, so the split is stated
on the character sequence (`String.data`) of the joined result. -/

/-- The character data of `String.intercalate` is `List.intercalate` of
the character data. -/
theorem data_intercalate_go (s acc : String) (as : List String) :
    (String.intercalate.go acc s as).data
      = acc.data ++ (as.map (fun a => s.data ++ a.data)).flatten := by
  induction as generalizing acc with
  | nil => simp [String.intercalate.go]
  | cons a as ih =>
    rw [String.intercalate.go, ih]
    simp [List.append_assoc]

theorem data_intercalate (s : String) (l : List String) :
    (String.intercalate s l).data = List.intercalate s.data (l.map String.data) := by
  cases l with
  | nil => rfl
  | cons a as =>
    rw [String.intercalate, data_intercalate_go]
    induction as generalizing a with
    | nil => simp [List.intercalate]
    | cons b bs ih =>
      simp only [List.map_cons, List.flatten_cons, List.intercalate,
        List.intersperse_cons_cons, List.flatten] at ih ⊢
      rw [← List.append_assoc]
      have := ih b
      simp only [List.intercalate] at this
      simp [this, List.append_assoc]

/-- `List.intercalate` of a cons with a nonempty tail. -/
theorem intercalate_cons_of_ne_nil {α : Type} (sep x : List α) (xs : List (List α))
    (h : xs ≠ []) :
    List.intercalate sep (x :: xs) = x ++ sep ++ List.intercalate sep xs := by
  cases xs with
  | nil => exact absurd rfl h
  | cons y zs =>
    simp [List.intercalate, List.intersperse_cons_cons, List.append_assoc]

/-- `List.intercalate` distributes over an append of nonempty lists. -/
theorem intercalate_append_of_ne_nil {α : Type} (sep : List α) :
    ∀ (a b : List (List α)), a ≠ [] → b ≠ [] →
    List.intercalate sep (a ++ b)
      = List.intercalate sep a ++ sep ++ List.intercalate sep b := by
  intro a
  induction a with
  | nil => intro b h _; exact absurd rfl h
  | cons x a ih =>
    intro b _ hb
    cases a with
    | nil =>
      simp only [List.nil_append, List.singleton_append]
      rw [intercalate_cons_of_ne_nil sep x b hb]
      simp [List.intercalate]
    | cons y zs =>
      rw [List.cons_append,
        intercalate_cons_of_ne_nil sep x ((y :: zs) ++ b) (by simp),
        intercalate_cons_of_ne_nil sep x (y :: zs) (by simp),
        ih b (by simp) hb]
      simp [List.append_assoc]

/-- Joining per-group intercalations with the same separator intercalates
the flattened groups, provided every group is nonempty. -/
theorem intercalate_map_intercalate {α : Type} (sep : List α) :
    ∀ (gss : List (List (List α))), (∀ g ∈ gss, g ≠ []) →
    List.intercalate sep (gss.map (List.intercalate sep))
      = List.intercalate sep gss.flatten := by
  intro gss
  induction gss with
  | nil => intro _; rfl
  | cons g gss ih =>
    intro hne
    cases gss with
    | nil => simp [List.intercalate]
    | cons g2 rest =>
      have hflat : (g2 :: rest).flatten ≠ [] := by
        have hg2 : g2 ≠ [] := hne g2 (by simp)
        simp only [List.flatten_cons]
        intro h
        exact hg2 (List.append_eq_nil.mp h).1
      rw [List.map_cons,
        intercalate_cons_of_ne_nil sep _ _ (by simp),
        ih (fun x hx => hne x (List.mem_cons_of_mem g hx)),
        show (g :: g2 :: rest).flatten = g ++ (g2 :: rest).flatten from rfl,
        intercalate_append_of_ne_nil sep g (g2 :: rest).flatten
          (hne g (by simp)) hflat]

/-- C2 as stated is false: a sentence unit that itself contains the
separator character is cut apart by the split.  Concrete input: the single
sentence `"a b"` (limit 20, the source's literal). -/
theorem chunker_roundtrip_cex :
    (String.intercalate " " (split_text_into_sentence_groups ["a b"])).data.splitOn ' '
      ≠ (["a b"] : List String).map String.data := by
  decide

/-- C2 amended: for every limit ≥ 1 and every nonempty sequence of
sentence units none of which contains the separator character, splitting
the space-joined concatenation of the chunker's output on the separator
reproduces the original sentence sequence. -/
theorem chunker_roundtrip (limit : Nat) (sents : List String)
    (hl : 1 ≤ limit) (hne : sents ≠ []) (hsp : ∀ s ∈ sents, ' ' ∉ s.data) :
    (String.intercalate " " (sentence_groups limit sents)).data.splitOn ' '
      = sents.map String.data := by
  obtain ⟨gs, h1, h2, _, _, h5, h6⟩ :=
    sentenceGroupsAux_structure limit hl sents [] (by simp only [List.length_nil]; omega)
  simp only [List.nil_append] at h1
  have hganz : sentence_groups limit sents = gs.map (String.intercalate " ") := h2
  rw [hganz, data_intercalate]
  have hsep : (" " : String).data = [' '] := rfl
  rw [hsep]
  have hmapmap : (gs.map (String.intercalate " ")).map String.data
      = (gs.map (fun g => g.map String.data)).map (List.intercalate [' ']) := by
    rw [List.map_map, List.map_map]
    apply List.map_congr_left
    intro g _
    simp [Function.comp, data_intercalate]
  rw [hmapmap,
    intercalate_map_intercalate [' '] (gs.map (fun g => g.map String.data))
      (by
        intro g hg
        obtain ⟨g0, hg0, rfl⟩ := List.mem_map.mp hg
        simpa using h6 g0 hg0)]
  have hflat : (gs.map (fun g => g.map String.data)).flatten = sents.map String.data := by
    rw [← List.map_flatten, ← h1]
  rw [hflat]
  apply List.splitOn_intercalate
  · intro l hl'
    obtain ⟨s, hs, rfl⟩ := List.mem_map.mp hl'
    exact hsp s hs
  · simpa using hne

/-- Witness for the amended C2 at limit 3 and four space-free sentences. -/
theorem chunker_roundtrip_witness :
    (String.intercalate " " (sentence_groups 3 ["ab", "c", "d", "e"])).data.splitOn ' '
      = (["ab", "c", "d", "e"] : List String).map String.data :=
  chunker_roundtrip 3 ["ab", "c", "d", "e"] (by decide) (by decide) (by decide)

/-! ### Job Store records and operations (api/models.py, api/crud.py)

The SQLAlchemy store is embedded as an explicit state: the two tables as
lists of records plus the autoincrement counters.  Record ids are unique
in any state produced by the `create_*` operations; the `filter(...).first()`
queries become `List.find?`, `filter(...).all()` becomes `List.filter`,
and an attribute update through a fetched row becomes a map over the
table that rewrites the rows with the matching id. -/

structure OriginalText where
  id : Nat
  text : String
  status : String
deriving DecidableEq, Repr

structure Translation where
  id : Nat
  text_id : Nat
  language : String
  status : String
  translated_content : Option String
deriving DecidableEq, Repr

structure DB where
  texts : List OriginalText
  translations : List Translation
  nextTextId : Nat
  nextTranslationId : Nat
deriving DecidableEq, Repr

/-- `get_text` (api/crud.py): first `OriginalText` row with the given id,
`none` when absent. -/
def get_text (db : DB) (text_id : Nat) : Option OriginalText :=
  db.texts.find? (fun t => t.id == text_id)

/-- `get_translation` (api/crud.py). -/
def get_translation (db : DB) (id : Nat) : Option Translation :=
  db.translations.find? (fun t => t.id == id)

/-- `get_translations_for_text` (api/crud.py): all `Translation` rows of
one text, in table order. -/
def get_translations_for_text (db : DB) (text_id : Nat) : List Translation :=
  db.translations.filter (fun t => t.text_id == text_id)

/-- `update_text_status` (api/crud.py). -/
def update_text_status (db : DB) (text_id : Nat) (new_status : String) : DB :=
  { db with
    texts := db.texts.map (fun t =>
      if t.id == text_id then { t with status := new_status } else t) }

/-- `update_translation_fields` (api/crud.py): sets status and
translated content of the row with the given id. -/
def update_translation_fields (db : DB) (id : Nat) (status : String)
    (translated_content : String) : DB :=
  { db with
    translations := db.translations.map (fun t =>
      if t.id == id then
        { t with status := status, translated_content := some translated_content }
      else t) }

/-- `create_text` (api/crud.py): inserts an `OriginalText` row with
status `"pending"` and a fresh autoincrement id. -/
def create_text (db : DB) (text : String) : OriginalText × DB :=
  let record : OriginalText := ⟨db.nextTextId, text, "pending"⟩
  (record, { db with texts := db.texts ++ [record], nextTextId := db.nextTextId + 1 })

/-- `create_translation` (api/crud.py): inserts a `Translation` row; the
`translated_content` column starts absent. -/
def create_translation (db : DB) (text_id : Nat) (language status : String) :
    Translation × DB :=
  let record : Translation := ⟨db.nextTranslationId, text_id, language, status, none⟩
  (record,
    { db with
      translations := db.translations ++ [record],
      nextTranslationId := db.nextTranslationId + 1 })

/-- `create_translation_task` (api/crud.py): creates the text row, then
one `"pending"` translation row per requested language, in list order. -/
def create_translation_task (db : DB) (text : String) (languages : List String) :
    OriginalText × DB :=
  let p := create_text db text
  (p.1, languages.foldl (fun d language => (create_translation d p.1.id language "pending").2) p.2)

/-! ### Sub-job Worker (api/tasks.py / api/tasks_async.py,
`process_individual_translation`)

The worker fetches its `Translation` row and the parent text, chunks the
text, dispatches one translation call per chunk concurrently, waits for
all of them, joins the results in chunk order with a single space, and
writes the row `status = "complete"` with the joined content.

Concurrency model: the chunk calls are issued as one task per chunk; the
completion order of the calls is the schedule `sched` (a permutation of
the task indices).  `asyncio.gather` / `ThreadPoolExecutor.map` return
the results positionally — by task index, not completion order — and
surface the first exception observed in completion order.  A `None`
returned by `get_translation`/`get_text` is an `AttributeError` in the
source (dereferenced without a check), embedded as a worker error. -/

inductive WorkerError
  | missingRecord
  | translationFailed
deriving DecidableEq, Repr

/-- The first error among the dispatched tasks in completion order
(`sched`), if any. -/
def gatherFirstError (tasks : List (Except Unit String)) (sched : List Nat) : Option Unit :=
  sched.findSome? (fun j =>
    match tasks.get? j with
    | some (Except.error e) => some e
    | _ => none)

/-- Collect the task results positionally (task-list order). -/
def collectResults : List (Except Unit String) → Except Unit (List String)
  | [] => Except.ok []
  | Except.error e :: _ => Except.error e
  | Except.ok a :: rest => (collectResults rest).map (fun l => a :: l)

/-- `asyncio.gather` over the chunk tasks: fails with the first error in
completion order, otherwise returns the results in task order. -/
def gather (tasks : List (Except Unit String)) (sched : List Nat) :
    Except Unit (List String) :=
  match gatherFirstError tasks sched with
  | some e => Except.error e
  | none => collectResults tasks

/-- `process_individual_translation`: one Sub-job Worker invocation. -/
def process_individual_translation
    (translate : String → String → Except Unit String)
    (segment : String → List String)
    (sched : List Nat)
    (db : DB) (translation_id : Nat) : Except WorkerError DB :=
  match get_translation db translation_id with
  | none => Except.error WorkerError.missingRecord
  | some translation =>
    match get_text db translation.text_id with
    | none => Except.error WorkerError.missingRecord
    | some text =>
      let chunks := split_text_into_sentence_groups (segment text.text)
      let tasks := chunks.map (fun chunk => translate chunk translation.language)
      match gather tasks sched with
      | Except.error _ => Except.error WorkerError.translationFailed
      | Except.ok translated_sentences =>
        Except.ok (update_translation_fields db translation_id "complete"
          (String.intercalate " " translated_sentences))

/-- When every chunk translation succeeds, `gather` returns the chunk
results in chunk order, for every completion schedule. -/
theorem collectResults_map_ok (f : String → String) (g : String → Except Unit String)
    (hg : ∀ c, g c = Except.ok (f c)) (chunks : List String) :
    collectResults (chunks.map g) = Except.ok (chunks.map f) := by
  induction chunks with
  | nil => rfl
  | cons c cs ih =>
    simp only [List.map_cons, hg, collectResults, ih]
    rfl

theorem gather_all_ok (translate : String → String → Except Unit String)
    (f : String → String) (lang : String)
    (hf : ∀ c l, translate c l = Except.ok (f c))
    (chunks : List String) (sched : List Nat) :
    gather (chunks.map (fun c => translate c lang)) sched = Except.ok (chunks.map f) := by
  unfold gather
  have h1 : gatherFirstError (chunks.map (fun c => translate c lang)) sched = none := by
    unfold gatherFirstError
    rw [List.findSome?_eq_none_iff]
    intro j _
    rw [List.get?_map]
    rcases hc : chunks.get? j with _ | c0
    · rfl
    · simp only [Option.map_some, hf]
      rfl
  rw [h1]
  exact collectResults_map_ok f (fun c => translate c lang) (fun c => hf c lang) chunks

/-- Core behavior of a successful worker run: the written row content is
the join of the chunk translations in chunk-ordinal order, for every
completion schedule. -/
theorem worker_run_spec
    (translate : String → String → Except Unit String) (f : String → String)
    (segment : String → List String) (sched : List Nat)
    (db : DB) (translation_id : Nat) (translation : Translation) (text : OriginalText)
    (hT : get_translation db translation_id = some translation)
    (hX : get_text db translation.text_id = some text)
    (hf : ∀ c l, translate c l = Except.ok (f c)) :
    process_individual_translation translate segment sched db translation_id
      = Except.ok (update_translation_fields db translation_id "complete"
          (String.intercalate " "
            ((split_text_into_sentence_groups (segment text.text)).map f))) := by
  unfold process_individual_translation
  rw [hT]
  dsimp only
  rw [hX]
  dsimp only
  rw [gather_all_ok translate f translation.language hf]

/-- C3: when the Sub-job Worker succeeds, the written `translated_content`
is `translate(C0) + " " + translate(C1) + ... + translate(Cn)` over the
chunks in ordinal order — the completion schedule `sched` of the
concurrent calls is universally quantified and absent from the result. -/
theorem worker_aggregation_order
    (translate : String → String → Except Unit String) (f : String → String)
    (segment : String → List String) (sched : List Nat)
    (db : DB) (translation_id : Nat) (translation : Translation) (text : OriginalText)
    (hT : get_translation db translation_id = some translation)
    (hX : get_text db translation.text_id = some text)
    (hf : ∀ c l, translate c l = Except.ok (f c)) :
    process_individual_translation translate segment sched db translation_id
      = Except.ok (update_translation_fields db translation_id "complete"
          (String.intercalate " "
            ((split_text_into_sentence_groups (segment text.text)).map f))) :=
  worker_run_spec translate f segment sched db translation_id translation text hT hX hf

def dbW3 : DB :=
  ⟨[⟨1, "Hello there. Bye.", "pending"⟩], [⟨1, 1, "es", "pending", none⟩], 2, 2⟩

/-- Witness for C3: a two-chunk text with the reversed completion
schedule `[1, 0]` still aggregates in chunk order. -/
theorem worker_aggregation_order_witness :
    process_individual_translation (fun c _ => Except.ok (c ++ "!"))
        (fun _ => ["Hello there.", "Bye."]) [1, 0] dbW3 1
      = Except.ok (update_translation_fields dbW3 1 "complete"
          (String.intercalate " "
            ((split_text_into_sentence_groups ["Hello there.", "Bye."]).map
              (fun c => c ++ "!")))) :=
  worker_aggregation_order (fun c _ => Except.ok (c ++ "!")) (fun c => c ++ "!")
    (fun _ => ["Hello there.", "Bye."]) [1, 0] dbW3 1
    ⟨1, 1, "es", "pending", none⟩ ⟨1, "Hello there. Bye.", "pending"⟩
    rfl rfl (fun _ _ => rfl)

/-! ### C8: re-running the worker on a `complete` Sub-job

The source worker has no guard on the Sub-job's status: a second
invocation re-fetches the row, re-translates every chunk through the
external service, and overwrites status and content.  The external
service is nondeterministic across invocations (the source samples a
chat completion at temperature 0.7), so the two runs may carry different
`translate` oracles. -/

theorem find?_map_update (i : Nat) (st c : String) (l : List Translation) :
    List.find? (fun t => t.id == i)
        (l.map (fun t =>
          if t.id == i then { t with status := st, translated_content := some c } else t))
      = (List.find? (fun t => t.id == i) l).map
          (fun t => { t with status := st, translated_content := some c }) := by
  induction l with
  | nil => rfl
  | cons t l ih =>
    by_cases h : (t.id == i) = true
    · simp only [List.map_cons, if_pos h, List.find?_cons]
      rw [h]
      rfl
    · have hf : (t.id == i) = false := by rwa [Bool.not_eq_true] at h
      simp only [List.map_cons, if_neg h, List.find?_cons]
      rw [hf]
      exact ih

/-- Effect of `update_translation_fields` on the updated row. -/
theorem get_translation_update (db : DB) (i : Nat) (st c : String) :
    get_translation (update_translation_fields db i st c) i
      = (get_translation db i).map
          (fun t => { t with status := st, translated_content := some c }) := by
  unfold get_translation update_translation_fields
  exact find?_map_update i st c db.translations

def dbC8 : DB :=
  ⟨[⟨1, "Hello.", "completed"⟩], [⟨1, 1, "es", "complete", some "hola"⟩], 2, 2⟩

/-- C8 as stated is false: re-running the worker on the already-complete
Sub-job 1 of `dbC8` with a service answer different from the stored one
overwrites `translated_content` (`some "hola"` becomes `some "HOLA"`). -/
theorem worker_idempotency_cex :
    ((process_individual_translation (fun _ _ => Except.ok "HOLA") (fun s => [s]) [0] dbC8 1).toOption.bind
        (fun db => (get_translation db 1).bind (fun t => t.translated_content)))
      ≠ (get_translation dbC8 1).bind (fun t => t.translated_content) := by
  decide

/-- C8 amended: re-running the worker on a `complete` Sub-job never
reverts its status — it writes `complete` again — but it overwrites
`translated_content` with the freshly translated chunks; the row is
unchanged exactly when the service reproduces the stored content. -/
theorem worker_rerun_terminal
    (translate : String → String → Except Unit String) (f : String → String)
    (segment : String → List String) (sched : List Nat)
    (db : DB) (translation_id : Nat) (translation : Translation) (text : OriginalText)
    (hT : get_translation db translation_id = some translation)
    (hS : translation.status = "complete")
    (hX : get_text db translation.text_id = some text)
    (hf : ∀ c l, translate c l = Except.ok (f c)) :
    ∃ db', process_individual_translation translate segment sched db translation_id
        = Except.ok db' ∧
      get_translation db' translation_id
        = some { translation with
            status := "complete",
            translated_content := some (String.intercalate " "
              ((split_text_into_sentence_groups (segment text.text)).map f)) } ∧
      (translation.translated_content
          = some (String.intercalate " "
              ((split_text_into_sentence_groups (segment text.text)).map f)) →
        get_translation db' translation_id = some translation) := by
  refine ⟨_, worker_run_spec translate f segment sched db translation_id translation text hT hX hf,
    ?_, ?_⟩
  · rw [get_translation_update, hT]
    rfl
  · intro hold
    rw [get_translation_update, hT]
    simp only [Option.map_some', Option.some.injEq]
    rw [← hS, ← hold]

def dbW8 : DB :=
  ⟨[⟨1, "Hello.", "completed"⟩], [⟨1, 1, "es", "complete", some "Hello."⟩], 2, 2⟩

/-- Witness for the amended C8: with a service that reproduces the stored
content, the re-run leaves the row unchanged. -/
theorem worker_rerun_terminal_witness :
    ∃ db', process_individual_translation (fun c _ => Except.ok c) (fun s => [s]) [0] dbW8 1
        = Except.ok db' ∧
      get_translation db' 1
        = some { (⟨1, 1, "es", "complete", some "Hello."⟩ : Translation) with
            status := "complete",
            translated_content := some (String.intercalate " "
              ((split_text_into_sentence_groups ["Hello."]).map (fun c => c))) } ∧
      ((⟨1, 1, "es", "complete", some "Hello."⟩ : Translation).translated_content
          = some (String.intercalate " "
              ((split_text_into_sentence_groups ["Hello."]).map (fun c => c))) →
        get_translation db' 1 = some ⟨1, 1, "es", "complete", some "Hello."⟩) :=
  worker_rerun_terminal (fun c _ => Except.ok c) (fun c => c) (fun s => [s]) [0]
    dbW8 1 ⟨1, 1, "es", "complete", some "Hello."⟩ ⟨1, "Hello.", "completed"⟩
    rfl rfl rfl (fun _ _ => rfl)

/-! ### Job Orchestrator as a step relation (api/tasks.py `process_translation`
+ chord, api/tasks_async.py `process_translation` + `asyncio.gather`)

The orchestrator fans out one worker per `Translation` row of the text,
waits for all of them, and only then updates the text status.  The
interleaving of the workers is modelled as a small-step relation: a
worker step runs one dispatched worker to completion (with an arbitrary
service oracle, segmentation and completion schedule), removing it from
the outstanding set and recording a failure flag when it raised; the
finalize step is enabled only once no worker is outstanding and none
failed — a failed worker makes `asyncio.gather` (resp. the chord
callback) raise instead of running the status update. -/

structure OrchState where
  db : DB
  remaining : List Nat
  failed : Bool

/-- State at the moment the orchestrator has dispatched its workers. -/
def startState (db : DB) (text_id : Nat) : OrchState :=
  ⟨db, (get_translations_for_text db text_id).map (fun t => t.id), false⟩

inductive OrchStep (text_id : Nat) : OrchState → OrchState → Prop
  | worker_ok (s : OrchState) (tid : Nat)
      (translate : String → String → Except Unit String)
      (segment : String → List String) (sched : List Nat) (db' : DB)
      (hmem : tid ∈ s.remaining)
      (hrun : process_individual_translation translate segment sched s.db tid
        = Except.ok db') :
      OrchStep text_id s ⟨db', s.remaining.erase tid, s.failed⟩
  | worker_fail (s : OrchState) (tid : Nat)
      (translate : String → String → Except Unit String)
      (segment : String → List String) (sched : List Nat) (e : WorkerError)
      (hmem : tid ∈ s.remaining)
      (hrun : process_individual_translation translate segment sched s.db tid
        = Except.error e) :
      OrchStep text_id s ⟨s.db, s.remaining.erase tid, true⟩
  | finalize (s : OrchState)
      (hrem : s.remaining = []) (hok : s.failed = false) :
      OrchStep text_id s ⟨update_text_status s.db text_id "completed", [], false⟩

/-- A successful worker run is exactly one `update_translation_fields`
write of status `"complete"`. -/
theorem worker_ok_shape (translate : String → String → Except Unit String)
    (segment : String → List String) (sched : List Nat)
    (db : DB) (tid : Nat) (db' : DB)
    (h : process_individual_translation translate segment sched db tid = Except.ok db') :
    ∃ content, db' = update_translation_fields db tid "complete" content := by
  unfold process_individual_translation at h
  split at h
  · cases h
  · split at h
    · cases h
    · dsimp only at h
      split at h
      · cases h
      · injection h with h
        exact ⟨_, h.symm⟩

theorem filter_map_update (i : Nat) (st c : String) (x : Nat) (l : List Translation) :
    List.filter (fun t => t.text_id == x)
        (l.map (fun t =>
          if t.id == i then { t with status := st, translated_content := some c } else t))
      = (List.filter (fun t => t.text_id == x) l).map
          (fun t =>
            if t.id == i then { t with status := st, translated_content := some c } else t) := by
  induction l with
  | nil => rfl
  | cons t l ih =>
    by_cases h : (t.id == i) = true
    · by_cases hx : (t.text_id == x) = true
      · simp only [List.map_cons, if_pos h, List.filter_cons]
        have hx2 : (({ t with status := st, translated_content := some c } : Translation).text_id == x) = true := hx
        rw [if_pos hx2, if_pos hx]
        simp only [List.map_cons, if_pos h]
        rw [ih]
      · simp only [List.map_cons, if_pos h, List.filter_cons]
        have hx2 : (({ t with status := st, translated_content := some c } : Translation).text_id == x) = true ↔ False := by
          simp only [iff_false]
          exact hx
        rw [if_neg (by exact fun hh => hx hh), if_neg hx]
        exact ih
    · by_cases hx : (t.text_id == x) = true
      · simp only [List.map_cons, if_neg h, List.filter_cons]
        rw [if_pos hx, if_pos hx]
        simp only [List.map_cons, if_neg h]
        rw [ih]
      · simp only [List.map_cons, if_neg h, List.filter_cons]
        rw [if_neg hx, if_neg hx]
        exact ih

/-- Effect of `update_translation_fields` on a text's Sub-job rows. -/
theorem get_translations_update (db : DB) (i : Nat) (st c : String) (x : Nat) :
    get_translations_for_text (update_translation_fields db i st c) x
      = (get_translations_for_text db x).map
          (fun t =>
            if t.id == i then { t with status := st, translated_content := some c } else t) := by
  unfold get_translations_for_text update_translation_fields
  exact filter_map_update i st c x db.translations

theorem get_translations_update_text (db : DB) (x : Nat) (st : String) (y : Nat) :
    get_translations_for_text (update_text_status db x st) y
      = get_translations_for_text db y := rfl

/-- Orchestration invariant: while no worker failed, every Sub-job whose
worker already finished carries status `"complete"`; and the job text can
carry status `"completed"` only after every worker finished successfully. -/
def OrchInv (text_id : Nat) (s : OrchState) : Prop :=
  (s.failed = false → ∀ t ∈ get_translations_for_text s.db text_id,
      t.id ∉ s.remaining → t.status = "complete") ∧
  (∀ tx ∈ s.db.texts, tx.id = text_id → tx.status = "completed" →
      s.remaining = [] ∧ s.failed = false)

theorem orchStep_inv (text_id : Nat) (s s' : OrchState)
    (hstep : OrchStep text_id s s') (hinv : OrchInv text_id s) : OrchInv text_id s' := by
  obtain ⟨h1, h2⟩ := hinv
  cases hstep with
  | worker_ok tid translate segment sched db' hmem hrun =>
    obtain ⟨content, rfl⟩ := worker_ok_shape translate segment sched s.db tid db' hrun
    constructor
    · intro hfail t ht hnotin
      rw [get_translations_update] at ht
      obtain ⟨t0, ht0, rfl⟩ := List.mem_map.mp ht
      by_cases hid : (t0.id == tid) = true
      · rw [if_pos hid]
      · rw [if_neg hid] at hnotin ⊢
        have hne : t0.id ≠ tid := by
          intro hh
          exact hid (by simp [hh])
        have : t0.id ∉ s.remaining := fun hin =>
          hnotin ((List.mem_erase_of_ne hne).mpr hin)
        exact h1 hfail t0 ht0 this
    · intro tx htx hid hst
      have hrem0 : s.remaining = [] := (h2 tx htx hid hst).1
      rw [hrem0] at hmem
      exact absurd hmem (List.not_mem_nil tid)
  | worker_fail tid translate segment sched e hmem hrun =>
    constructor
    · intro hfail
      cases hfail
    · intro tx htx hid hst
      have hrem0 : s.remaining = [] := (h2 tx htx hid hst).1
      rw [hrem0] at hmem
      exact absurd hmem (List.not_mem_nil tid)
  | finalize hrem hok =>
    constructor
    · intro _ t ht _
      rw [get_translations_update_text] at ht
      exact h1 hok t ht (by rw [hrem]; exact List.not_mem_nil _)
    · intro tx htx hid hst
      exact ⟨rfl, rfl⟩

theorem reachable_inv (db : DB) (text_id : Nat) (s : OrchState)
    (hpend : ∀ tx ∈ db.texts, tx.id = text_id → tx.status = "pending")
    (hreach : Relation.ReflTransGen (OrchStep text_id) (startState db text_id) s) :
    OrchInv text_id s := by
  induction hreach with
  | refl =>
    constructor
    · intro _ t ht hnot
      exact absurd (List.mem_map_of_mem (fun t => t.id) ht) hnot
    · intro tx htx hid hst
      have hp := hpend tx htx hid
      rw [hp] at hst
      exact absurd hst (by decide)
  | tail hsteps hstep ih => exact orchStep_inv text_id _ _ hstep ih

/-- C4: in every state reachable by the orchestration step relation from
the dispatch of a pending Job, if the Job's text row reads `"completed"`
then no Sub-job of that Job still reads `"pending"` — the `"completed"`
write happens only after every dispatched worker finished. -/
theorem job_completed_no_pending_subjob (db : DB) (text_id : Nat) (s : OrchState)
    (tx : OriginalText)
    (hpend : ∀ t ∈ db.texts, t.id = text_id → t.status = "pending")
    (hreach : Relation.ReflTransGen (OrchStep text_id) (startState db text_id) s)
    (htx : get_text s.db text_id = some tx)
    (hcomp : tx.status = "completed")
    (t : Translation) (ht : t ∈ get_translations_for_text s.db text_id) :
    t.status ≠ "pending" := by
  obtain ⟨h1, h2⟩ := reachable_inv db text_id s hpend hreach
  have hmem : tx ∈ s.db.texts := List.mem_of_find?_eq_some htx
  have hid : tx.id = text_id := by
    simpa using List.find?_some htx
  obtain ⟨hrem, hfail⟩ := h2 tx hmem hid hcomp
  have hc := h1 hfail t ht (by rw [hrem]; exact List.not_mem_nil _)
  rw [hc]
  decide

def dbW4 : DB :=
  ⟨[⟨1, "A.", "pending"⟩], [⟨1, 1, "es", "pending", none⟩], 2, 2⟩

/-- Witness for C4: a concrete two-step run (worker, then finalize) of the
one-language job of `dbW4`; in the completed state its Sub-job is not
`"pending"`. -/
theorem job_completed_no_pending_subjob_witness :
    (⟨1, 1, "es", "complete", some "A."⟩ : Translation).status ≠ "pending" := by
  have hchain : Relation.ReflTransGen (OrchStep 1) (startState dbW4 1)
      ⟨update_text_status (update_translation_fields dbW4 1 "complete" "A.") 1 "completed",
        [], false⟩ := by
    refine Relation.ReflTransGen.head
      (OrchStep.worker_ok (startState dbW4 1) 1 (fun c _ => Except.ok c) (fun s => [s]) [0]
        (update_translation_fields dbW4 1 "complete" "A.") (by decide) rfl) ?_
    exact Relation.ReflTransGen.head (OrchStep.finalize _ rfl rfl) Relation.ReflTransGen.refl
  exact job_completed_no_pending_subjob dbW4 1 _ ⟨1, "A.", "completed"⟩
    (by decide) hchain rfl rfl ⟨1, 1, "es", "complete", some "A."⟩ (by decide)

/-! ### C5: Job finalization and worker failure

Functional form of the orchestrator run: the dispatched workers all run
(one service oracle, completion schedule per worker; a failure of one
worker does not cancel its siblings), and the concluding status update —
the chord callback in api/tasks.py, the code after `asyncio.gather` in
api/tasks_async.py — runs only when no worker raised: a raising worker
makes the gather/chord propagate the exception instead. -/

/-- Run the dispatched workers; returns the resulting store and whether
every worker succeeded. -/
def run_workers (translate : Nat → String → String → Except Unit String)
    (segment : String → List String) (sched : Nat → List Nat) :
    DB → List Nat → DB × Bool
  | db, [] => (db, true)
  | db, tid :: rest =>
    match process_individual_translation (translate tid) segment (sched tid) db tid with
    | Except.ok db1 => run_workers translate segment sched db1 rest
    | Except.error _ => ((run_workers translate segment sched db rest).1, false)

/-- `process_translation`: fan out one worker per Sub-job of the text,
wait for all, then update the text status — skipped if any worker raised. -/
def process_translation (translate : Nat → String → String → Except Unit String)
    (segment : String → List String) (sched : Nat → List Nat)
    (db : DB) (text_id : Nat) : DB :=
  let p := run_workers translate segment sched db
    ((get_translations_for_text db text_id).map (fun t => t.id))
  if p.2 then update_text_status p.1 text_id "completed" else p.1

/-- Workers never write the texts table. -/
theorem run_workers_texts (translate : Nat → String → String → Except Unit String)
    (segment : String → List String) (sched : Nat → List Nat) :
    ∀ (tids : List Nat) (db : DB),
    (run_workers translate segment sched db tids).1.texts = db.texts := by
  intro tids
  induction tids with
  | nil => intro db; rfl
  | cons tid rest ih =>
    intro db
    unfold run_workers
    rcases hw : process_individual_translation (translate tid) segment (sched tid) db tid
      with e | db1
    · dsimp only
      exact ih db
    · dsimp only
      obtain ⟨content, rfl⟩ := worker_ok_shape _ _ _ _ _ _ hw
      rw [ih]
      rfl

def dbC5 : DB :=
  ⟨[⟨1, "A. B.", "pending"⟩],
    [⟨1, 1, "es", "pending", none⟩, ⟨2, 1, "fr", "pending", none⟩], 2, 3⟩

def trC5 : Nat → String → String → Except Unit String :=
  fun tid c _ => if tid == 1 then Except.error () else Except.ok c

/-- C5 as stated is false on the code: in the job of `dbC5`, the `"es"`
worker fails terminally (its translation call always raises, modelling
error-status retry exhaustion), the sibling `"fr"` Sub-job still reaches
`"complete"`, but the Job is never written `"completed"` — the barrier
propagates the exception and the status update is skipped, so the job
text still reads `"pending"`. -/
theorem orchestrator_completes_cex :
    get_text (process_translation trC5 (fun s => [s]) (fun _ => [0]) dbC5 1) 1
        = some ⟨1, "A. B.", "pending"⟩ ∧
    get_translation (process_translation trC5 (fun s => [s]) (fun _ => [0]) dbC5 1) 2
        = some ⟨2, 1, "fr", "complete", some "A. B."⟩ ∧
    (get_text (process_translation trC5 (fun s => [s]) (fun _ => [0]) dbC5 1) 1).map
        (fun t => t.status) ≠ some "completed" := by
  refine ⟨rfl, rfl, ?_⟩
  decide

/-- C5 amended: once all Sub-job Workers finish, the orchestrator writes
the Job `"completed"` exactly when every worker succeeded; if any worker
failed terminally the finalization is skipped and the Job record is left
untouched (a pending Job stays pending), while the sibling workers'
writes remain. -/
theorem orchestrator_finalization (translate : Nat → String → String → Except Unit String)
    (segment : String → List String) (sched : Nat → List Nat)
    (db : DB) (text_id : Nat) :
    ((run_workers translate segment sched db
        ((get_translations_for_text db text_id).map (fun t => t.id))).2 = true →
      process_translation translate segment sched db text_id
        = update_text_status
            (run_workers translate segment sched db
              ((get_translations_for_text db text_id).map (fun t => t.id))).1
            text_id "completed") ∧
    ((run_workers translate segment sched db
        ((get_translations_for_text db text_id).map (fun t => t.id))).2 = false →
      process_translation translate segment sched db text_id
          = (run_workers translate segment sched db
              ((get_translations_for_text db text_id).map (fun t => t.id))).1 ∧
      (process_translation translate segment sched db text_id).texts = db.texts) := by
  constructor
  · intro h
    unfold process_translation
    dsimp only
    rw [h]
    rfl
  · intro h
    constructor
    · unfold process_translation
      dsimp only
      rw [h]
      rfl
    · unfold process_translation
      dsimp only
      rw [h]
      exact run_workers_texts translate segment sched _ db

/-- Witness for the amended C5, at the failing run of `dbC5`: the
finalization is skipped and the texts table is untouched. -/
theorem orchestrator_finalization_witness :
    process_translation trC5 (fun s => [s]) (fun _ => [0]) dbC5 1
        = (run_workers trC5 (fun s => [s]) (fun _ => [0]) dbC5
            ((get_translations_for_text dbC5 1).map (fun t => t.id))).1 ∧
    (process_translation trC5 (fun s => [s]) (fun _ => [0]) dbC5 1).texts = dbC5.texts :=
  (orchestrator_finalization trC5 (fun s => [s]) (fun _ => [0]) dbC5 1).2 (by decide)

/-! ### Translation Client (api/tasks_async.py, `query_gpt_async`)

The retry loop: 42 attempts, each a POST with timeout 48; on an HTTP
error status it decrements the budget, re-raising when the budget is
exhausted and otherwise sleeping 21 before retrying; on a read timeout it
decrements the budget, leaving the loop (and returning no value) when the
budget is exhausted and otherwise sleeping 21 before retrying.

The external service's behavior is an oracle giving the outcome of each
attempt; the loop is embedded with the remaining-retries counter as the
recursion fuel, and it records a trace of its externally visible events:
each issued attempt (with the counter value at issue and the request
timeout) and each backoff sleep. -/

inductive AttemptOutcome
  | success (content : String)
  | httpStatusError
  | readTimeout
deriving DecidableEq, Repr

inductive Event
  | attempt (retriesBefore timeout : Nat)
  | sleep (seconds : Nat)
deriving DecidableEq, Repr

def Event.isAttempt : Event → Bool
  | Event.attempt _ _ => true
  | _ => false

def Event.isSleep : Event → Bool
  | Event.sleep _ => true
  | _ => false

/-- The `while retries > 0` loop of `query_gpt_async`: `i` is the attempt
index into the oracle, `r` the value of `retries`. -/
def query_gpt_async_loop (outcomes : Nat → AttemptOutcome) :
    Nat → Nat → List Event × Except Unit (Option String)
  | _, 0 => ([], Except.ok none)
  | i, r + 1 =>
    let ev := Event.attempt (r + 1) 48
    match outcomes i with
    | AttemptOutcome.success content => ([ev], Except.ok (some content))
    | AttemptOutcome.httpStatusError =>
      if r = 0 then ([ev], Except.error ())
      else
        let rest := query_gpt_async_loop outcomes (i + 1) r
        (ev :: Event.sleep 21 :: rest.1, rest.2)
    | AttemptOutcome.readTimeout =>
      if r = 0 then ([ev], Except.ok none)
      else
        let rest := query_gpt_async_loop outcomes (i + 1) r
        (ev :: Event.sleep 21 :: rest.1, rest.2)

/-- `query_gpt_async` with its literals: `retries = 42`, first attempt
index 0 (`wait_time = 21` and `timeout=48` are in the loop). -/
def query_gpt_async (outcomes : Nat → AttemptOutcome) :
    List Event × Except Unit (Option String) :=
  query_gpt_async_loop outcomes 0 42

/-- One-step unfolding of the loop on a retryable HTTP-status failure with
budget left. -/
theorem query_gpt_async_loop_http (outcomes : Nat → AttemptOutcome) (i m : Nat)
    (h : outcomes i = AttemptOutcome.httpStatusError) :
    query_gpt_async_loop outcomes i (m + 2)
      = (Event.attempt (m + 2) 48 :: Event.sleep 21 ::
          (query_gpt_async_loop outcomes (i + 1) (m + 1)).1,
         (query_gpt_async_loop outcomes (i + 1) (m + 1)).2) := by
  rw [query_gpt_async_loop]
  dsimp only
  rw [h]
  dsimp only
  rw [if_neg (Nat.succ_ne_zero m)]

/-- One-step unfolding of the loop on a retryable read timeout with budget
left. -/
theorem query_gpt_async_loop_timeout (outcomes : Nat → AttemptOutcome) (i m : Nat)
    (h : outcomes i = AttemptOutcome.readTimeout) :
    query_gpt_async_loop outcomes i (m + 2)
      = (Event.attempt (m + 2) 48 :: Event.sleep 21 ::
          (query_gpt_async_loop outcomes (i + 1) (m + 1)).1,
         (query_gpt_async_loop outcomes (i + 1) (m + 1)).2) := by
  rw [query_gpt_async_loop]
  dsimp only
  rw [h]
  dsimp only
  rw [if_neg (Nat.succ_ne_zero m)]

/-- Peeling one block off the backoff/attempt tail. -/
theorem flatten_range_succ_shift (m j : Nat) :
    ((List.range (j + 1)).map
        (fun k => [Event.sleep 21, Event.attempt (m + 1 - k) 48])).flatten
      = Event.sleep 21 :: Event.attempt (m + 1) 48 ::
        ((List.range j).map
          (fun k => [Event.sleep 21, Event.attempt (m - k) 48])).flatten := by
  rw [List.range_succ_eq_map, List.map_cons, List.flatten_cons]
  have hmap : (List.map Nat.succ (List.range j)).map
        (fun k => [Event.sleep 21, Event.attempt (m + 1 - k) 48])
      = (List.range j).map (fun k => [Event.sleep 21, Event.attempt (m - k) 48]) := by
    rw [List.map_map]
    apply List.map_congr_left
    intro k _
    simp [Nat.succ_sub_succ]
  rw [hmap]
  rfl

/-- Trace shape of the loop: some number `n` of attempts is issued,
`1 ≤ n ≤ r`; the k-th attempt carries the decremented counter `r - k` and
timeout 48, and consecutive attempts are separated by a 21-unit sleep. -/
theorem query_loop_trace (outcomes : Nat → AttemptOutcome) :
    ∀ (r i : Nat), 1 ≤ r →
    ∃ n, 1 ≤ n ∧ n ≤ r ∧
      (query_gpt_async_loop outcomes i r).1
        = Event.attempt r 48 ::
          ((List.range (n - 1)).map
            (fun k => [Event.sleep 21, Event.attempt (r - 1 - k) 48])).flatten := by
  intro r
  induction r with
  | zero => intro i h; omega
  | succ r ih =>
    intro i _
    cases r with
    | zero =>
      refine ⟨1, by omega, by omega, ?_⟩
      cases h : outcomes i <;> simp [query_gpt_async_loop, h]
    | succ m =>
      cases h : outcomes i with
      | success content =>
        exact ⟨1, by omega, by omega, by simp [query_gpt_async_loop, h]⟩
      | httpStatusError =>
        obtain ⟨n, hn1, hn2, htr⟩ := ih (i + 1) (by omega)
        refine ⟨n + 1, by omega, by omega, ?_⟩
        rw [query_gpt_async_loop_http outcomes i m h]
        dsimp only
        rw [htr]
        simp only [Nat.add_sub_cancel]
        obtain ⟨j, rfl⟩ : ∃ j, n = j + 1 := ⟨n - 1, by omega⟩
        simp only [Nat.add_sub_cancel]
        rw [flatten_range_succ_shift m j]
      | readTimeout =>
        obtain ⟨n, hn1, hn2, htr⟩ := ih (i + 1) (by omega)
        refine ⟨n + 1, by omega, by omega, ?_⟩
        rw [query_gpt_async_loop_timeout outcomes i m h]
        dsimp only
        rw [htr]
        simp only [Nat.add_sub_cancel]
        obtain ⟨j, rfl⟩ : ∃ j, n = j + 1 := ⟨n - 1, by omega⟩
        simp only [Nat.add_sub_cancel]
        rw [flatten_range_succ_shift m j]

theorem sum_map_one {α : Type} (l : List α) : (l.map (fun _ => (1 : Nat))).sum = l.length := by
  induction l with
  | nil => rfl
  | cons a l ih => simp [ih, Nat.add_comm]

/-- C6: every run of the Translation Client retry loop issues at most 42
attempts against the service, each with request timeout 48; a 21-unit
sleep separates consecutive attempts; and the remaining-retries counter
carried by the k-th attempt is `42 - k`.  The loop is a total function of
the outcome oracle, so it terminates on every input. -/
theorem translation_client_retry_discipline (outcomes : Nat → AttemptOutcome) :
    ∃ n, 1 ≤ n ∧ n ≤ 42 ∧
      (query_gpt_async outcomes).1
        = Event.attempt 42 48 ::
          ((List.range (n - 1)).map
            (fun k => [Event.sleep 21, Event.attempt (41 - k) 48])).flatten ∧
      ((query_gpt_async outcomes).1.countP Event.isAttempt) = n ∧
      ((query_gpt_async outcomes).1.countP Event.isSleep) = n - 1 := by
  obtain ⟨n, hn1, hn2, htr⟩ := query_loop_trace outcomes 42 0 (by omega)
  have h4241 : (42 : Nat) - 1 = 41 := rfl
  rw [h4241] at htr
  have htr' : (query_gpt_async outcomes).1
      = Event.attempt 42 48 ::
        ((List.range (n - 1)).map
          (fun k => [Event.sleep 21, Event.attempt (41 - k) 48])).flatten := htr
  refine ⟨n, hn1, hn2, htr', ?_, ?_⟩
  · rw [htr', List.countP_cons, List.countP_flatten, List.map_map]
    have hblocks : ((List.range (n - 1)).map
        (List.countP Event.isAttempt ∘ fun k => [Event.sleep 21, Event.attempt (41 - k) 48]))
        = (List.range (n - 1)).map (fun _ => (1 : Nat)) := by
      apply List.map_congr_left
      intro k _
      rfl
    rw [hblocks, sum_map_one, List.length_range]
    have hif : (if Event.isAttempt (Event.attempt 42 48) = true then 1 else 0) = 1 := rfl
    rw [hif]
    omega
  · rw [htr', List.countP_cons, List.countP_flatten, List.map_map]
    have hblocks : ((List.range (n - 1)).map
        (List.countP Event.isSleep ∘ fun k => [Event.sleep 21, Event.attempt (41 - k) 48]))
        = (List.range (n - 1)).map (fun _ => (1 : Nat)) := by
      apply List.map_congr_left
      intro k _
      rfl
    rw [hblocks, sum_map_one, List.length_range]
    have hif : (if Event.isSleep (Event.attempt 42 48) = true then 1 else 0) = 0 := rfl
    rw [hif]
    omega

/-- Result of the loop when no attempt succeeds: determined by the kind of
the final attempt's failure. -/
theorem query_loop_exhaustion (outcomes : Nat → AttemptOutcome) :
    ∀ (r i : Nat), 1 ≤ r →
    (∀ j, j < r → ∀ s, outcomes (i + j) ≠ AttemptOutcome.success s) →
    ((outcomes (i + (r - 1)) = AttemptOutcome.httpStatusError →
        (query_gpt_async_loop outcomes i r).2 = Except.error ()) ∧
     (outcomes (i + (r - 1)) = AttemptOutcome.readTimeout →
        (query_gpt_async_loop outcomes i r).2 = Except.ok none)) := by
  intro r
  induction r with
  | zero => intro i h; omega
  | succ r ih =>
    intro i _ hfail
    cases r with
    | zero =>
      constructor
      · intro hh
        have hh' : outcomes i = AttemptOutcome.httpStatusError := hh
        rw [query_gpt_async_loop]
        dsimp only
        rw [hh']
        rfl
      · intro hh
        have hh' : outcomes i = AttemptOutcome.readTimeout := hh
        rw [query_gpt_async_loop]
        dsimp only
        rw [hh']
        rfl
    | succ m =>
      have hshift : ∀ j, j < m + 1 → ∀ s, outcomes (i + 1 + j) ≠ AttemptOutcome.success s := by
        intro j hj s
        have hmain := hfail (j + 1) (by omega) s
        rwa [show i + (j + 1) = i + 1 + j from by omega] at hmain
      have hrec := ih (i + 1) (by omega) hshift
      cases h : outcomes i with
      | success content => exact absurd h (hfail 0 (by omega) content)
      | httpStatusError =>
        rw [query_gpt_async_loop_http outcomes i m h]
        constructor
        · intro hh
          apply hrec.1
          rwa [show i + 1 + (m + 1 - 1) = i + (m + 1 + 1 - 1) from by omega]
        · intro hh
          apply hrec.2
          rwa [show i + 1 + (m + 1 - 1) = i + (m + 1 + 1 - 1) from by omega]
      | readTimeout =>
        rw [query_gpt_async_loop_timeout outcomes i m h]
        constructor
        · intro hh
          apply hrec.1
          rwa [show i + 1 + (m + 1 - 1) = i + (m + 1 + 1 - 1) from by omega]
        · intro hh
          apply hrec.2
          rwa [show i + 1 + (m + 1 - 1) = i + (m + 1 + 1 - 1) from by omega]

/-- C7: when every attempt fails, the outcome of `query_gpt_async`
depends on the kind of the 42nd (final) failure: an error status makes
the exception propagate to the caller; a timeout makes the loop break and
the call return with no result. -/
theorem translation_client_exhaustion_asymmetry (outcomes : Nat → AttemptOutcome)
    (hfail : ∀ j, j < 42 → ∀ s, outcomes j ≠ AttemptOutcome.success s) :
    (outcomes 41 = AttemptOutcome.httpStatusError →
      (query_gpt_async outcomes).2 = Except.error ()) ∧
    (outcomes 41 = AttemptOutcome.readTimeout →
      (query_gpt_async outcomes).2 = Except.ok none) := by
  have hmain := query_loop_exhaustion outcomes 42 0 (by omega)
    (by intro j hj s; simpa using hfail j hj s)
  simpa using hmain

/-- Witness for C7 on the two all-failure oracles. -/
theorem translation_client_exhaustion_asymmetry_witness :
    (query_gpt_async (fun _ => AttemptOutcome.httpStatusError)).2 = Except.error () ∧
    (query_gpt_async (fun _ => AttemptOutcome.readTimeout)).2 = Except.ok none :=
  ⟨(translation_client_exhaustion_asymmetry (fun _ => AttemptOutcome.httpStatusError)
      (fun _ _ s h => AttemptOutcome.noConfusion h)).1 rfl,
   (translation_client_exhaustion_asymmetry (fun _ => AttemptOutcome.readTimeout)
      (fun _ _ s h => AttemptOutcome.noConfusion h)).2 rfl⟩

/-! ### C9: record creation at submit (api/crud.py `create_translation_task`,
api/main.py `translate`) -/

/-- The `Translation` rows created for a language list: consecutive
autoincrement ids from `startId`, all owned by `text_id`, all `"pending"`
with absent content, in the order the languages appear. -/
def mkTranslations (startId text_id : Nat) : List String → List Translation
  | [] => []
  | language :: rest =>
    ⟨startId, text_id, language, "pending", none⟩ :: mkTranslations (startId + 1) text_id rest

theorem create_loop_spec (text_id : Nat) (langs : List String) :
    ∀ db : DB,
    (langs.foldl (fun d language => (create_translation d text_id language "pending").2) db)
      = { db with
          translations := db.translations ++ mkTranslations db.nextTranslationId text_id langs,
          nextTranslationId := db.nextTranslationId + langs.length } := by
  induction langs with
  | nil =>
    intro db
    simp [mkTranslations]
  | cons language rest ih =>
    intro db
    rw [List.foldl_cons, ih]
    simp only [create_translation, mkTranslations]
    rw [List.append_assoc]
    simp only [List.singleton_append, List.length_cons]
    congr 1
    omega

/-- C9: `create_translation_task` on a store `db` creates exactly one Job
record — id fresh, source text `text`, status `"pending"` — and exactly
one `"pending"` Sub-job per requested language, carrying that language and
the Job's id, in the order the languages appear; nothing else changes and
no other records are created. -/
theorem submit_creates_records (db : DB) (text : String) (languages : List String) :
    (create_translation_task db text languages).1
        = ⟨db.nextTextId, text, "pending"⟩ ∧
    (create_translation_task db text languages).2
        = { texts := db.texts ++ [⟨db.nextTextId, text, "pending"⟩],
            translations := db.translations
              ++ mkTranslations db.nextTranslationId db.nextTextId languages,
            nextTextId := db.nextTextId + 1,
            nextTranslationId := db.nextTranslationId + languages.length } := by
  constructor
  · rfl
  · show (languages.foldl
        (fun d language => (create_translation d (create_text db text).1.id language "pending").2)
        (create_text db text).2) = _
    rw [create_loop_spec]
    rfl

/-! ### C10: polling an unknown job id (api/main.py `get_translate`)

`get_translate` fetches the text row and immediately reads `task.status`;
when `get_text` returned `None` this is an `AttributeError` — there is no
absence check before the status test. -/

inductive PyFault
  | noneAttribute
deriving DecidableEq, Repr

inductive PollResult
  | inProgress
  | result (id : Nat) (text : String) (translations : List Translation)
deriving DecidableEq, Repr

/-- `get_translate` (api/main.py): the poll endpoint. -/
def get_translate (db : DB) (task_id : Nat) : Except PyFault PollResult :=
  match get_text db task_id with
  | none => Except.error PyFault.noneAttribute
  | some task =>
    if task.status = "pending" then Except.ok PollResult.inProgress
    else Except.ok (PollResult.result task.id task.text (get_translations_for_text db task_id))

/-- C10: polling an id with no stored Job faults (the `None` from
`get_text` is dereferenced before any status check) instead of returning
an absence answer — the operation is total only on existing Jobs. -/
theorem poll_missing_job_faults (db : DB) (task_id : Nat)
    (habs : get_text db task_id = none) :
    get_translate db task_id = Except.error PyFault.noneAttribute := by
  unfold get_translate
  rw [habs]

/-- Witness for C10 at the empty store. -/
theorem poll_missing_job_faults_witness :
    get_translate ⟨[], [], 0, 0⟩ 7 = Except.error PyFault.noneAttribute :=
  poll_missing_job_faults ⟨[], [], 0, 0⟩ 7 rfl
